import Mathlib

/-!
Verification of the notcoal rule-matching and tag-mutation engine.

The repository holds two revisions of the engine side by side:
* `src/filter.rs` + `src/operations.rs` + `src/error.rs` — the module revision
  (`Filter::is_match`, `Filter::compile`, `Filter::name`, `Operations::apply`);
* `src/lib.rs` — the older monolithic revision with its own `Filter::apply`
  (which returns `Ok(true)` on every successful path) and the drivers
  `filter` / `filter_dry` plus `validate_query_tag`.

This file embeds both shallowly.  External collaborators (the notmuch
database, the filesystem and the process spawner) are modelled as explicit
state passing: a message has an immutable part (`Msg`) and a mutable mailbox
record (`MState`), and every collaborator call either fails (leaving the
state unchanged, since the primitive is atomic) or succeeds with the effect
the notmuch API documents.  Regular expressions are modelled as opaque
matchers `String → Bool`; compilation of a pattern string is an abstract
parameter, since only the shape of the compiled lists matters to the claims.
String literals from the source are reproduced with apostrophes elided.
-/

namespace Notcoal

/-- Error taxonomy of src/error.rs.  Payloads of the wrapped foreign errors
(io, serde, regex, notmuch, mailparse) are dropped: the code never inspects
them, it only propagates. -/
inductive Error where
  | IoError : Error
  | JSONError : Error
  | RegexError : Error
  | NotmuchError : Error
  | MailParseError : Error
  | UnsupportedQuery : String → Error
  | UnsupportedValue : String → Error
  | RegexUncompiled : String → Error
deriving DecidableEq, Repr

/-- Value enum from src/lib.rs: `Single(String) | Multiple(Vec<String>) |
Bool(bool)`. -/
inductive Value where
  | Single : String → Value
  | Multiple : List String → Value
  | Bool : Bool → Value
deriving DecidableEq, Repr

/-- Operations struct from src/operations.rs (identical in src/lib.rs). -/
structure Operations where
  rm : Option Value
  add : Option Value
  run : Option (List String)
  del : Option Bool
deriving DecidableEq, Repr

/-- A compiled regular expression, modelled as an opaque matcher.  Only
`Regex::is_match` is ever used by the engine. -/
structure Regex where
  is_match : String → Bool

/-- One MIME subpart of a parsed mail, as used by `Filter::is_match`:
the content-disposition filename parameter, the mime type string and the
decoded body (whose decoding may fail). -/
structure Subpart where
  cd_filename : Option String
  mimetype : String
  body : Except Error String

/-- Result of `parse_mail` on the message file, restricted to what
`Filter::is_match` reads: the subparts and the primary body. -/
structure ParsedMail where
  subparts : List Subpart
  body : Except Error String

/-- A notmuch thread, restricted to its tag set. -/
structure Thread where
  tags : List String

/-- Mutable mailbox record of one message: its tag set, whether its file is
still on disk and whether its database record still exists, plus the log of
processes spawned on its behalf (argv, NOTCOAL_FILE_NAME, NOTCOAL_MSG_ID,
NOTCOAL_FILTER_NAME). -/
structure MState where
  tags : List String
  fileOnDisk : Bool
  inIndex : Bool
  spawned : List (List String × String × String × String)
deriving DecidableEq, Repr

/-- Immutable attributes of one message.  `header` models
`Message::header` (outer failure = notmuch error, `none` = header absent);
`parsed` models the chain `File::open(msg.filename()) / read_to_end /
parse_mail`, which the code recomputes in each body-derived field but which
is deterministic within one match call. -/
structure Msg where
  id : String
  filename : String
  filenames : List (Option String)
  thread_id : String
  header : String → Except Error (Option String)
  parsed : Except Error ParsedMail

/-- The notmuch database collaborator used by matching:
`search_messages q` models `db.create_query(&q)?.search_messages()?` and
returns each message with its current mailbox record; `search_threads q`
models `db.create_query(&q)?.search_threads()?`. -/
structure Db where
  search_messages : String → Except Error (List (Msg × MState))
  search_threads : String → Except Error (List Thread)

/-- A compiled rule: the per-field regex lists, iterated in some fixed
order (the source stores a HashMap whose iteration order is arbitrary but
fixed; the list order stands for that order). -/
abbrev CompiledRule := List (String × List Regex)

/-- A raw rule: the field→Value map.  The source uses `BTreeMap<String,
Value>`, i.e. an association list sorted strictly by key; sortedness is
established where it matters (claim about derived names). -/
abbrev Rule := List (String × Value)

/-- Filter struct from src/filter.rs (identical in src/lib.rs). -/
structure Filter where
  name : Option String
  desc : Option String
  rules : List Rule
  op : Operations
  re : List CompiledRule

/-- Models `str::starts_with('@')` on a field key. -/
def startsWithAt (s : String) : Bool :=
  match s.data with
  | c :: _ => c = '@'
  | [] => false

/-- Models `str::starts_with("text")` on a mime type. -/
def startsWithText (s : String) : Bool :=
  List.isPrefixOf "text".data s.data

/-- Message strings of the source, apostrophes elided. -/
def msgUncompiled : String := "Filters need to be compiled before tested"

/-- Error message of the compile-time Boolean rejection. -/
def msgNotARegex : String := "Not a regular expression"

/-- Error message of the `add` Boolean rejection, apostrophes elided. -/
def msgAddBool : String := "add operation does not support bool types"

/-- Error message of the empty query-tag rejection, apostrophe elided. -/
def msgEmptyTag : String := "Tag to query cant be empty"

/-- Error message of the unsafe query-tag rejection, apostrophe elided. -/
def msgBadTag : String := "Query tags cant contain whitespace or quotes"

/-- Inner helper `sub_match` of `Filter::is_match`: true iff any supplied
value matches any of the regexes (the source loops values outer, regexes
inner, returning at the first hit). -/
def sub_match (res : List Regex) (values : List String) : Bool :=
  values.any fun value => res.any fun re => re.is_match value

/-- The header loop of `Filter::is_match`:
`for re in res { is_match = re.is_match(&p) && is_match; if !is_match {
break; } }`. -/
def headerLoop (res : List Regex) (p : String) (acc : Bool) : Bool :=
  match res with
  | [] => acc
  | re :: rest =>
    let acc' := re.is_match p && acc
    if !acc' then acc' else headerLoop rest p acc'

/-- The `collect::<Result<Vec<Option<String>>>>()?` step of the
`@attachment-body` branch in src/filter.rs: text-typed subparts decode
their bodies (first failure aborts), others contribute `None`. -/
def collectBodies : List Subpart → Except Error (List (Option String))
  | [] => .ok []
  | s :: rest =>
    if startsWithText s.mimetype then
      match s.body with
      | .error e => .error e
      | .ok b =>
        match collectBodies rest with
        | .error e => .error e
        | .ok l => .ok (some b :: l)
    else
      match collectBodies rest with
      | .error e => .error e
      | .ok l => .ok (none :: l)

/-- One iteration of the `for (part, res) in rule` loop of
`Filter::is_match` (src/filter.rs, lines 148–226): the virtual-field
dispatch chain, the `starts_with('@') → continue` guard, and the literal
header lookup.  `acc` is the rule accumulator `is_match`. -/
def fieldStep (db : Db) (msg : Msg) (st : MState) (acc : Bool)
    (part : String) (res : List Regex) : Except Error Bool :=
  if part = "@path" then
    .ok (sub_match res (msg.filenames.filterMap id) && acc)
  else if part = "@tags" then
    .ok (sub_match res st.tags && acc)
  else if part = "@thread-tags" then
    match db.search_threads ("thread:" ++ msg.thread_id) with
    | .error e => .error e
    | .ok threads =>
      match threads with
      | thread :: _ => .ok (sub_match res thread.tags && acc)
      | [] => .ok acc
  else if part = "@attachment" || part = "@attachment-body" || part = "@body" then
    match msg.parsed with
    | .error e => .error e
    | .ok parsed =>
      if part = "@attachment" then
        .ok (sub_match res ((parsed.subparts.map fun s => s.cd_filename).filterMap id) && acc)
      else if part = "@body" then
        match parsed.body with
        | .error e => .error e
        | .ok b => .ok (sub_match res [b] && acc)
      else
        match collectBodies parsed.subparts with
        | .error e => .error e
        | .ok bodys => .ok (sub_match res (bodys.filterMap id) && acc)
  else if startsWithAt part then
    .ok acc
  else
    match msg.header part with
    | .error _ => .error Error.NotmuchError
    | .ok none => .ok false
    | .ok (some p) => .ok (headerLoop res p acc)

/-- The full field loop of one rule, threading the accumulator. -/
def evalRule (db : Db) (msg : Msg) (st : MState) :
    CompiledRule → Bool → Except Error Bool
  | [], acc => .ok acc
  | (part, res) :: rest, acc =>
    match fieldStep db msg st acc part res with
    | .error e => .error e
    | .ok acc' => evalRule db msg st rest acc'

/-- The outer `for rule in &self.re` loop of `Filter::is_match`:
short-circuits true at the first matching rule. -/
def isMatchRules (db : Db) (msg : Msg) (st : MState) :
    List CompiledRule → Except Error Bool
  | [] => .ok false
  | rule :: rest =>
    match evalRule db msg st rule true with
    | .error e => .error e
    | .ok true => .ok true
    | .ok false => isMatchRules db msg st rest

/-- `Filter::is_match` (src/filter.rs, lines 122–233): uncompiled filters
fail loudly, otherwise OR over the compiled rules.  (The src/lib.rs
revision differs only inside the `@attachment` / `@attachment-body`
branches, where it additionally requires the attachment content
disposition; no claim depends on that difference.) -/
def Filter.is_match (f : Filter) (msg : Msg) (st : MState) (db : Db) :
    Except Error Bool :=
  if f.re.length ≠ f.rules.length then .error (Error.RegexUncompiled msgUncompiled)
  else isMatchRules db msg st f.re

/-- `Single(re)` pushes one compiled pattern, `Multiple(mre)` one per entry,
anything else is `UnsupportedValue` — the per-value part of
`Filter::compile`.  `rnew` is the abstract regex compiler `Regex::new`. -/
def compileValue (rnew : String → Except Error Regex) :
    Value → Except Error (List Regex)
  | .Single re =>
    match rnew re with
    | .error e => .error e
    | .ok r => .ok [r]
  | .Multiple mre =>
    match mre.mapM rnew with
    | .error e => .error e
    | .ok rs => .ok rs
  | .Bool _ => .error (Error.UnsupportedValue msgNotARegex)

/-- The inner `for (key, value) in rule.iter()` loop of `Filter::compile`. -/
def compileRule (rnew : String → Except Error Regex) :
    Rule → Except Error CompiledRule
  | [] => .ok []
  | (key, value) :: rest =>
    match compileValue rnew value with
    | .error e => .error e
    | .ok res =>
      match compileRule rnew rest with
      | .error e => .error e
      | .ok compiled => .ok ((key, res) :: compiled)

/-- `Filter::compile`: compiles every rule eagerly, pushing onto `re`. -/
def Filter.compile (rnew : String → Except Error Regex) (f : Filter) :
    Except Error Filter :=
  match f.rules.mapM (compileRule rnew) with
  | .error e => .error e
  | .ok compiled => .ok { f with re := f.re ++ compiled }

/-- The mailbox / filesystem / process collaborator as seen by the
operations executor.  Each `..._ok` predicate says whether the primitive
call succeeds in a given state; on success the effect is the one the
notmuch API documents (remove a tag, add a tag, clear all tags, drop the
database record, spawn a process).  A failed primitive leaves the state
unchanged — the primitive is atomic; non-atomicity of `apply` is what has
to be proved, not assumed. -/
structure Mailbox where
  remove_tag_ok : String → MState → Bool
  add_tag_ok : String → MState → Bool
  remove_all_tags_ok : MState → Bool
  remove_message_ok : MState → Bool
  spawn_ok : List String → Bool

/-- `Message::remove_tag`. -/
def Mailbox.remove_tag (mb : Mailbox) (t : String) (st : MState) :
    Except Error MState :=
  if mb.remove_tag_ok t st then .ok { st with tags := st.tags.erase t }
  else .error Error.NotmuchError

/-- `Message::add_tag` (tags form a set: adding an existing tag is a
no-op). -/
def Mailbox.add_tag (mb : Mailbox) (t : String) (st : MState) :
    Except Error MState :=
  if mb.add_tag_ok t st then
    .ok { st with tags := if st.tags.contains t then st.tags else st.tags ++ [t] }
  else .error Error.NotmuchError

/-- `Message::remove_all_tags`. -/
def Mailbox.remove_all_tags (mb : Mailbox) (st : MState) :
    Except Error MState :=
  if mb.remove_all_tags_ok st then .ok { st with tags := [] }
  else .error Error.NotmuchError

/-- `std::fs::remove_file(msg.filename())`: fails iff the file is already
gone, otherwise removes it. -/
def fs_remove_file (st : MState) : Except Error MState :=
  if st.fileOnDisk then .ok { st with fileOnDisk := false }
  else .error Error.IoError

/-- `Database::remove_message(msg.filename())`: drops the index record. -/
def Mailbox.remove_message (mb : Mailbox) (st : MState) :
    Except Error MState :=
  if mb.remove_message_ok st then .ok { st with inIndex := false }
  else .error Error.NotmuchError

/-- `Command::new(argv[0]).args(argv[1..]).env(...).spawn()`: on success the
spawned invocation, with the three NOTCOAL environment values, is appended
to the log. -/
def Mailbox.spawn (mb : Mailbox) (argv : List String)
    (file id name : String) (st : MState) : Except Error MState :=
  if mb.spawn_ok argv then
    .ok { st with spawned := st.spawned ++ [(argv, file, id, name)] }
  else .error Error.IoError

/-- Lifts an atomic primitive result into the (result, state) shape: on
failure the pre-call state persists. -/
def prim (r : Except Error MState) (st : MState) :
    Except Error Unit × MState :=
  match r with
  | .ok st' => (.ok (), st')
  | .error e => (.error e, st)

/-- The `Multiple` removal loop: `for tag in tags { msg.remove_tag(tag)?;
}` — aborts at the first failure, earlier removals stay. -/
def rmTags (mb : Mailbox) : List String → MState → Except Error Unit × MState
  | [], st => (.ok (), st)
  | t :: ts, st =>
    match mb.remove_tag t st with
    | .ok st' => rmTags mb ts st'
    | .error e => (.error e, st)

/-- The `Multiple` addition loop of the `add` operation. -/
def addTags (mb : Mailbox) : List String → MState → Except Error Unit × MState
  | [], st => (.ok (), st)
  | t :: ts, st =>
    match mb.add_tag t st with
    | .ok st' => addTags mb ts st'
    | .error e => (.error e, st)

/-- The `rm` step of `Operations::apply` (src/operations.rs, lines 52–68;
identical in the src/lib.rs revision). -/
def Operations.applyRm (ops : Operations) (mb : Mailbox) (st : MState) :
    Except Error Unit × MState :=
  match ops.rm with
  | none => (.ok (), st)
  | some (.Single tag) => prim (mb.remove_tag tag st) st
  | some (.Multiple tags) => rmTags mb tags st
  | some (.Bool all) =>
    if all then prim (mb.remove_all_tags st) st else (.ok (), st)

/-- The `add` step of `Operations::apply` (src/operations.rs, lines 69–86):
Boolean values are rejected with `UnsupportedValue`. -/
def Operations.applyAdd (ops : Operations) (mb : Mailbox) (st : MState) :
    Except Error Unit × MState :=
  match ops.add with
  | none => (.ok (), st)
  | some (.Single tag) => prim (mb.add_tag tag st) st
  | some (.Multiple tags) => addTags mb tags st
  | some (.Bool _) => (.error (Error.UnsupportedValue msgAddBool), st)

/-- The `run` step of `Operations::apply` (src/operations.rs, lines
87–95): fire-and-forget spawn with the three NOTCOAL environment
variables. -/
def Operations.applyRun (ops : Operations) (mb : Mailbox) (msg : Msg)
    (name : String) (st : MState) : Except Error Unit × MState :=
  match ops.run with
  | none => (.ok (), st)
  | some argv => prim (mb.spawn argv msg.filename msg.id name st) st

/-- The `del` step of `Operations::apply` (src/operations.rs, lines
96–105): file removal first, index removal second, `Ok(true)` only when
both happened. -/
def Operations.applyDel (ops : Operations) (mb : Mailbox) (st : MState) :
    Except Error Bool × MState :=
  match ops.del with
  | some del =>
    if del then
      match fs_remove_file st with
      | .error e => (.error e, st)
      | .ok st' =>
        match mb.remove_message st' with
        | .error e => (.error e, st')
        | .ok st'' => (.ok true, st'')
    else (.ok false, st)
  | none => (.ok false, st)

/-- `Operations::apply` (src/operations.rs, lines 43–106): rm, add, run,
del in that fixed order, each conditional on presence; any failure aborts
with the effects so far in place. -/
def Operations.apply (ops : Operations) (mb : Mailbox) (msg : Msg)
    (name : String) (st : MState) : Except Error Bool × MState :=
  match ops.applyRm mb st with
  | (.error e, st1) => (.error e, st1)
  | (.ok (), st1) =>
    match ops.applyAdd mb st1 with
    | (.error e, st2) => (.error e, st2)
    | (.ok (), st2) =>
      match ops.applyRun mb msg name st2 with
      | (.error e, st3) => (.error e, st3)
      | (.ok (), st3) => ops.applyDel mb st3

/-- Structural hash stand-in for `DefaultHasher`: a fixed fold over the
byte stream.  The only property the development relies on is that it is a
function of the serialized rule list, which holds for any hasher. -/
def hashBytes (l : List Nat) : Nat :=
  l.foldl (fun h b => (h * 1099511628211 + b) % (2 ^ 64)) 14695981039346656037

/-- Byte serialization of a string, modelled via code points (the real
hasher feeds UTF-8 bytes; only determinism matters to the claims). -/
def strBytes (s : String) : List Nat :=
  s.data.map Char.toNat

/-- Debug rendering of a `Value`, as `format!("{:?}", ...)` produces it. -/
def debugValue : Value → String
  | .Single s => "Single(\"" ++ s ++ "\")"
  | .Multiple l =>
    "Multiple([" ++ ", ".intercalate (l.map fun s => "\"" ++ s ++ "\"") ++ "])"
  | .Bool b => "Bool(" ++ (if b then "true" else "false") ++ ")"

/-- Debug rendering of one BTreeMap entry. -/
def debugEntry (kv : String × Value) : String :=
  "\"" ++ kv.1 ++ "\": " ++ debugValue kv.2

/-- Debug rendering of one rule (`BTreeMap` prints entries in key order —
the association list is kept in exactly that order). -/
def debugRule (r : Rule) : String :=
  "\x7b" ++ ", ".intercalate (r.map debugEntry) ++ "\x7d"

/-- Debug rendering of the rule vector. -/
def debugRules (rs : List Rule) : String :=
  "[" ++ ", ".intercalate (rs.map debugRule) ++ "]"

/-- `Filter::name` (src/filter.rs, lines 54–67): the explicit name if set,
otherwise the hex-formatted hash of `format!("{:?}", self.rules)`.  Named
with a prime because the struct field already takes the plain name. -/
def Filter.name' (f : Filter) : String :=
  match f.name with
  | some name => name
  | none => String.mk (Nat.toDigits 16 (hashBytes (strBytes (debugRules f.rules))))

/-- Single-quote character, written by code point to keep source literals
apostrophe-free. -/
def squote : Char := Char.ofNat 39

/-- Models `str::contains(char)`: scans the characters of the string. -/
def strContains (s : String) (c : Char) : Bool := s.data.contains c

/-- Models `str::is_empty`. -/
def strIsEmpty (s : String) : Bool := s.data.isEmpty

/-- `validate_query_tag` (src/lib.rs, lines 461–472): empty tags and tags
containing a space, a double quote or a single quote are rejected;
anything else becomes the literal query `tag:<tag>`. -/
def validate_query_tag (tag : String) : Except Error String :=
  if strIsEmpty tag then .error (Error.UnsupportedQuery msgEmptyTag)
  else if strContains tag ' ' || strContains tag '"' || strContains tag squote then
    .error (Error.UnsupportedQuery msgBadTag)
  else .ok ("tag:" ++ tag)

/-- `Filter::apply` of the src/lib.rs revision (lines 400–457): the same
rm / add / run / del sequence as `Operations::apply`, except that the
NOTCOAL_FILTER_NAME value is `self.name()` and that every successful path
ends in `Ok(true)` — the del branch carries no early return. -/
def LibFilter.apply (f : Filter) (mb : Mailbox) (msg : Msg) (st : MState) :
    Except Error Bool × MState :=
  match f.op.applyRm mb st with
  | (.error e, st1) => (.error e, st1)
  | (.ok (), st1) =>
    match f.op.applyAdd mb st1 with
    | (.error e, st2) => (.error e, st2)
    | (.ok (), st2) =>
      match f.op.applyRun mb msg f.name' st2 with
      | (.error e, st3) => (.error e, st3)
      | (.ok (), st3) =>
        match f.op.del with
        | some del =>
          if del then
            match fs_remove_file st3 with
            | .error e => (.error e, st3)
            | .ok st4 =>
              match mb.remove_message st4 with
              | .error e => (.error e, st4)
              | .ok st5 => (.ok true, st5)
          else (.ok true, st3)
        | none => (.ok true, st3)

/-- `Filter::apply_if_match` of the src/lib.rs revision (lines 237–250):
match, then apply; the returned bool says whether the filter was applied. -/
def LibFilter.apply_if_match (f : Filter) (db : Db) (mb : Mailbox)
    (msg : Msg) (st : MState) : Except Error Bool × MState :=
  match f.is_match msg st db with
  | .error e => (.error e, st)
  | .ok true => LibFilter.apply f mb msg st
  | .ok false => (.ok false, st)

/-- The `for filter in filters` loop of the src/lib.rs driver (lines
487–491): every filter is tried in caller order, the tally grows by one
per applied filter. -/
def msgFilters (db : Db) (mb : Mailbox) (filters : List Filter) (msg : Msg)
    (st : MState) (tally : Nat) : Except Error Nat × MState :=
  match filters with
  | [] => (.ok tally, st)
  | f :: rest =>
    match LibFilter.apply_if_match f db mb msg st with
    | (.error e, st') => (.error e, st')
    | (.ok applied, st') =>
      msgFilters db mb rest msg st' (if applied then tally + 1 else tally)

/-- The `while let Some(msg) = msgs.next()` loop of the src/lib.rs driver
(lines 486–493): per message all filters run, then
`msg.remove_tag(query_tag)?` — unconditionally.  The final mailbox record
of each processed message is returned alongside the tally. -/
def filterGo (db : Db) (mb : Mailbox) (query_tag : String)
    (filters : List Filter) :
    List (Msg × MState) → Nat → (Except Error Nat) × List MState
  | [], tally => (.ok tally, [])
  | (msg, st) :: rest, tally =>
    match msgFilters db mb filters msg st tally with
    | (.error e, st') => (.error e, [st'])
    | (.ok tally', st') =>
      match mb.remove_tag query_tag st' with
      | .error e => (.error e, [st'])
      | .ok st'' =>
        let (r, sts) := filterGo db mb query_tag filters rest tally'
        (r, st'' :: sts)

/-- The body of `filter` after query validation: one mailbox query with
the validated query string, then the message loop. -/
def filterQuery (db : Db) (mb : Mailbox) (query : String)
    (query_tag : String) (filters : List Filter) :
    (Except Error Nat) × List MState :=
  match db.search_messages query with
  | .error e => (.error e, [])
  | .ok msgs => filterGo db mb query_tag filters msgs 0

/-- `filter` (src/lib.rs, lines 477–495). -/
def filter (db : Db) (mb : Mailbox) (query_tag : String)
    (filters : List Filter) : (Except Error Nat) × List MState :=
  match validate_query_tag query_tag with
  | .error e => (.error e, [])
  | .ok query => filterQuery db mb query query_tag filters

/-- The per-message filter scan of `filter_dry` (src/lib.rs, lines
511–524): match only, recording `"<id>: <name>"` per matching filter,
aborting on the first matching error. -/
def dryFilters (db : Db) (msg : Msg) (st : MState) :
    List Filter → Except Error (Nat × List String)
  | [] => .ok (0, [])
  | f :: rest =>
    match f.is_match msg st db with
    | .error e => .error e
    | .ok true =>
      match dryFilters db msg st rest with
      | .error e => .error e
      | .ok (n, inf) => .ok (n + 1, (msg.id ++ ": " ++ f.name') :: inf)
    | .ok false => dryFilters db msg st rest

/-- The message loop of `filter_dry`: counts and records matches, never
mutating anything. -/
def dryGo (db : Db) (filters : List Filter) :
    List (Msg × MState) → Except Error (Nat × List String)
  | [] => .ok (0, [])
  | (msg, st) :: rest =>
    match dryFilters db msg st filters with
    | .error e => .error e
    | .ok (n, inf) =>
      match dryGo db filters rest with
      | .error e => .error e
      | .ok (n', inf') => .ok (n + n', inf ++ inf')

/-- The body of `filter_dry` after query validation. -/
def filterDryQuery (db : Db) (query : String) (filters : List Filter) :
    Except Error (Nat × List String) :=
  match db.search_messages query with
  | .error e => .error e
  | .ok msgs => dryGo db filters msgs

/-- `filter_dry` (src/lib.rs, lines 499–527). -/
def filter_dry (db : Db) (query_tag : String) (filters : List Filter) :
    Except Error (Nat × List String) :=
  match validate_query_tag query_tag with
  | .error e => .error e
  | .ok query => filterDryQuery db query filters

/-- `BTreeMap::insert` on the sorted association list: keeps strict key
order, replaces the value when the key already exists. -/
def btreeInsert (k : String) (v : Value) : Rule → Rule
  | [] => [(k, v)]
  | (k', v') :: rest =>
    if k < k' then (k, v) :: (k', v') :: rest
    else if k = k' then (k, v) :: rest
    else (k', v') :: btreeInsert k v rest

/-- A BTreeMap built by inserting the given entries one by one, in the
given insertion order. -/
def btreeOfList (l : List (String × Value)) : Rule :=
  l.foldl (fun m kv => btreeInsert kv.1 kv.2 m) []

/-- Key order on rule entries (what the BTreeMap sorts by). -/
def keyLt (a b : String × Value) : Prop := a.1 < b.1

/-- An exact-match matcher, used as a concrete inhabitant of the abstract
regex type in counterexamples and witnesses. -/
def reEq (s : String) : Regex := ⟨fun v => v == s⟩

/-- A concrete regex compiler for counterexamples: every pattern compiles,
to the exact matcher of the pattern string. -/
def rnewExact (s : String) : Except Error Regex := .ok (reEq s)

/-- The empty operation set. -/
def noOps : Operations := ⟨none, none, none, none⟩

/-- A mailbox collaborator on which every primitive succeeds. -/
def allOk : Mailbox :=
  ⟨fun _ _ => true, fun _ _ => true, fun _ => true, fun _ => true, fun _ => true⟩

/-- A message whose only populated attribute is a `subject` header with
value `a`. -/
def c2msg : Msg :=
  { id := "m2", filename := "f2", filenames := [], thread_id := "t2",
    header := fun part => if part = "subject" then .ok (some "a") else .ok none,
    parsed := .error Error.IoError }

/-- An otherwise quiet database. -/
def c2db : Db := ⟨fun _ => .ok [], fun _ => .ok []⟩

/-- A fresh mailbox record with no tags. -/
def c2st : MState := ⟨[], true, true, []⟩

/-- The raw filter whose single rule has the single literal-header field
`subject: Multiple(["a", "b"])`. -/
def c2raw : Filter :=
  { name := some "c2", desc := none,
    rules := [[("subject", Value.Multiple ["a", "b"])]],
    op := noOps, re := [] }

/-- The same filter compiled under `rnewExact`. -/
def c2filter : Filter :=
  { c2raw with re := [[("subject", [reEq "a", reEq "b"])]] }

/-- A message in thread `t7` with no other populated attribute. -/
def c7msg : Msg :=
  { id := "m7", filename := "f7", filenames := [], thread_id := "t7",
    header := fun _ => .ok none, parsed := .error Error.IoError }

/-- A database whose thread search always comes back empty. -/
def c7db : Db := ⟨fun _ => .ok [], fun _ => .ok []⟩

/-- A compiled filter whose only rule has the single field
`@thread-tags: Single("x")`. -/
def c7filter : Filter :=
  { name := some "c7", desc := none,
    rules := [[("@thread-tags", Value.Single "x")]],
    op := noOps, re := [[("@thread-tags", [reEq "x"])]] }

/-- A compiled filter whose only rule has the single field `@xyz`, an
unrecognized virtual key. -/
def c9filter : Filter :=
  { name := some "c9", desc := none,
    rules := [[("@xyz", Value.Single "p")]],
    op := noOps, re := [[("@xyz", [reEq "p"])]] }

/-- The message of the driver run: carries the query tag `new`. -/
def c3msg : Msg :=
  { id := "m3", filename := "f3", filenames := [], thread_id := "t3",
    header := fun _ => .ok none, parsed := .error Error.IoError }

/-- Its initial mailbox record. -/
def c3st : MState := ⟨["new"], true, true, []⟩

/-- A filter matching every message (one rule with no fields) whose only
operation is `del = true`. -/
def c3del : Filter :=
  { name := some "del-filter", desc := none, rules := [[]],
    op := { rm := none, add := none, run := none, del := some true },
    re := [[]] }

/-- A filter matching every message whose only operation adds tag `x`. -/
def c3add : Filter :=
  { name := some "add-x", desc := none, rules := [[]],
    op := { rm := none, add := some (Value.Single "x"), run := none, del := none },
    re := [[]] }

/-- The database of the driver run: querying `tag:new` returns the one
message. -/
def c3db : Db :=
  ⟨fun q => if q = "tag:new" then .ok [(c3msg, c3st)] else .ok [],
   fun _ => .ok []⟩

/-- The mailbox record of the message after the driver run of the code:
the file and index record are gone, yet tag `x` was added by the second
filter and the query tag was removed — both on the already deleted
message. -/
def c3final : MState := ⟨["x"], false, false, []⟩

/-- An empty-mailbox database for query-validation runs. -/
def c4db : Db := ⟨fun _ => .ok [], fun _ => .ok []⟩

/-- A mailbox on which `remove_tag` succeeds only for tag `a`: removing a
second tag `b` then fails, exhibiting a partial `rm` failure. -/
def c10mb : Mailbox :=
  ⟨fun t _ => decide (t = "a"), fun _ _ => true, fun _ => true,
   fun _ => true, fun _ => true⟩

/-- A nameless filter whose rule inserts `a` then `b`. -/
def c8a : Filter :=
  { name := none, desc := none,
    rules := [btreeOfList [("a", Value.Single "x"), ("b", Value.Single "y")]],
    op := noOps, re := [] }

/-- A nameless filter whose rule inserts the same two fields in the
opposite order. -/
def c8b : Filter :=
  { name := none, desc := none,
    rules := [btreeOfList [("b", Value.Single "y"), ("a", Value.Single "x")]],
    op := noOps, re := [] }

/-! ### Lemmas about the match evaluator -/

/-- The header loop computes the conjunction of all pattern matches with
the incoming accumulator. -/
theorem headerLoop_all (res : List Regex) (p : String) (acc : Bool) :
    headerLoop res p acc = ((res.all fun re => re.is_match p) && acc) := by
  induction res generalizing acc with
  | nil => simp [headerLoop]
  | cons re rest ih =>
    simp only [headerLoop, List.all_cons]
    cases h : re.is_match p with
    | false => simp [h]
    | true =>
      cases acc with
      | false => simp [h, ih]
      | true => simp [h, ih]

/-- One field step is the field's own verdict conjoined with the incoming
accumulator; in particular the error behaviour does not depend on the
accumulator. -/
theorem fieldStep_acc (db : Db) (msg : Msg) (st : MState) (acc : Bool)
    (part : String) (res : List Regex) :
    fieldStep db msg st acc part res
      = (fieldStep db msg st true part res).map (fun x => x && acc) := by
  unfold fieldStep
  repeat' split
  all_goals simp_all [Except.map, headerLoop_all, Bool.and_assoc]

/-- A whole rule scan is the scan started from `true` conjoined with the
incoming accumulator. -/
theorem evalRule_acc (db : Db) (msg : Msg) (st : MState)
    (fields : CompiledRule) (acc : Bool) :
    evalRule db msg st fields acc
      = (evalRule db msg st fields true).map (fun x => x && acc) := by
  induction fields generalizing acc with
  | nil => simp [evalRule, Except.map]
  | cons pr rest ih =>
    obtain ⟨part, res⟩ := pr
    simp only [evalRule]
    rw [fieldStep_acc db msg st acc part res]
    cases h : fieldStep db msg st true part res with
    | error e => simp [Except.map]
    | ok x =>
      simp only [Except.map]
      rw [ih (x && acc), ih x]
      cases he : evalRule db msg st rest true with
      | error e => simp [Except.map]
      | ok y => simp [Except.map, Bool.and_assoc]

/-- Once the accumulator is false, scanning the remaining fields can still
error but can never come back `Ok(true)`. -/
theorem evalRule_false (db : Db) (msg : Msg) (st : MState)
    (fields : CompiledRule) (b : Bool)
    (h : evalRule db msg st fields false = .ok b) : b = false := by
  rw [evalRule_acc] at h
  cases he : evalRule db msg st fields true with
  | error e => rw [he] at h; cases h
  | ok y => rw [he] at h; simp [Except.map] at h; exact h

/-- A rule scan from `true` succeeds with `true` iff every one of its
fields individually evaluates to `Ok(true)` — the AND across the fields of
one rule. -/
theorem evalRule_all (db : Db) (msg : Msg) (st : MState)
    (fields : CompiledRule) :
    evalRule db msg st fields true = .ok true
      ↔ ∀ pr ∈ fields, fieldStep db msg st true pr.1 pr.2 = .ok true := by
  induction fields with
  | nil => simp [evalRule]
  | cons pr rest ih =>
    obtain ⟨part, res⟩ := pr
    simp only [evalRule]
    constructor
    · intro h
      cases hf : fieldStep db msg st true part res with
      | error e => rw [hf] at h; cases h
      | ok acc' =>
        rw [hf] at h
        cases acc' with
        | false => exact absurd (evalRule_false db msg st rest true h) (by simp)
        | true =>
          intro q hq
          rcases List.mem_cons.mp hq with rfl | hq
          · simpa using hf
          · exact ih.mp h q hq
    · intro h
      have hf : fieldStep db msg st true part res = .ok true :=
        h (part, res) (by simp)
      rw [hf]
      exact ih.mpr fun q hq => h q (by simp [hq])

/-- The rule loop: a successful result is `true` iff some rule fully
matches — the OR across the rules. -/
theorem isMatchRules_iff (db : Db) (msg : Msg) (st : MState)
    (rules : List CompiledRule) (b : Bool)
    (h : isMatchRules db msg st rules = .ok b) :
    b = true ↔ ∃ r ∈ rules, evalRule db msg st r true = .ok true := by
  induction rules with
  | nil =>
    simp only [isMatchRules] at h
    cases h
    simp
  | cons rule rest ih =>
    simp only [isMatchRules] at h
    cases he : evalRule db msg st rule true with
    | error e => rw [he] at h; cases h
    | ok m =>
      rw [he] at h
      cases m with
      | true =>
        cases h
        simpa using Or.inl he
      | false =>
        have := ih h
        constructor
        · intro hb
          rcases this.mp hb with ⟨r, hr, hr2⟩
          exact ⟨r, by simp [hr], hr2⟩
        · intro ⟨r, hr, hr2⟩
          rcases List.mem_cons.mp hr with rfl | hr
          · rw [he] at hr2; cases hr2
          · exact this.mpr ⟨r, hr, hr2⟩

/-- The rule loop short-circuits: a `true` result decomposes as a first
matching rule preceded only by rules that evaluated to `Ok(false)`. -/
theorem isMatchRules_first (db : Db) (msg : Msg) (st : MState)
    (rules : List CompiledRule)
    (h : isMatchRules db msg st rules = .ok true) :
    ∃ pre rule post, rules = pre ++ rule :: post ∧
      evalRule db msg st rule true = .ok true ∧
      ∀ r ∈ pre, evalRule db msg st r true = .ok false := by
  induction rules with
  | nil => simp only [isMatchRules] at h; cases h
  | cons rule rest ih =>
    simp only [isMatchRules] at h
    cases he : evalRule db msg st rule true with
    | error e => rw [he] at h; cases h
    | ok m =>
      rw [he] at h
      cases m with
      | true => exact ⟨[], rule, rest, by simp, he, by simp⟩
      | false =>
        rcases ih h with ⟨pre, r, post, h1, h2, h3⟩
        refine ⟨rule :: pre, r, post, by simp [h1], h2, ?_⟩
        intro q hq
        rcases List.mem_cons.mp hq with rfl | hq
        · exact he
        · exact h3 q hq

/-! ### Claim theorems about the match evaluator -/

/-- Claim C1: for every compiled filter and every message, a successful
`is_match` returns true iff some rule of the filter has all of its fields
matching (OR across rules, AND across the fields of one rule); the true
comes from the first rule whose fields all match (all earlier rules
evaluated to false); and once a field of a rule has failed, scanning the
rule's remaining fields never flips that rule back to true. -/
theorem is_match_or_and (f : Filter) (msg : Msg) (st : MState) (db : Db) :
    (∀ b, f.is_match msg st db = .ok b →
      (b = true ↔ ∃ rule ∈ f.re, ∀ pr ∈ rule,
        fieldStep db msg st true pr.1 pr.2 = .ok true))
    ∧ (f.is_match msg st db = .ok true →
      ∃ pre rule post, f.re = pre ++ rule :: post ∧
        evalRule db msg st rule true = .ok true ∧
        ∀ r ∈ pre, evalRule db msg st r true = .ok false)
    ∧ (∀ fields b, evalRule db msg st fields false = .ok b → b = false) := by
  unfold Filter.is_match
  by_cases hl : f.re.length ≠ f.rules.length
  · rw [if_pos hl]
    refine ⟨?_, ?_, fun fields b h => evalRule_false db msg st fields b h⟩
    · intro b hb
      cases hb
    · intro hb
      cases hb
  · rw [if_neg hl]
    refine ⟨?_, ?_, fun fields b h => evalRule_false db msg st fields b h⟩
    · intro b hb
      have h := isMatchRules_iff db msg st f.re b hb
      constructor
      · intro hb1
        rcases h.mp hb1 with ⟨r, hr, hr2⟩
        exact ⟨r, hr, (evalRule_all db msg st r).mp hr2⟩
      · intro ⟨r, hr, hr2⟩
        exact h.mpr ⟨r, hr, (evalRule_all db msg st r).mpr hr2⟩
    · intro hb
      exact isMatchRules_first db msg st f.re hb

/-- Witness for C1: applied at the concrete compiled filter
`subject: Multiple(["a","b"])` and the message with subject `a`, where
`is_match` evaluates to `Ok(false)`, the theorem yields that no rule of
that filter has all fields matching. -/
theorem is_match_or_and_witness :
    ¬ ∃ rule ∈ c2filter.re, ∀ pr ∈ rule,
        fieldStep c2db c2msg c2st true pr.1 pr.2 = .ok true := by
  have h := (is_match_or_and c2filter c2msg c2st c2db).1 false (by rfl)
  intro hex
  exact absurd (h.mpr hex) (by decide)

/-- Claim C2 (amended): on a virtual field `Multiple` patterns are OR-ed —
`sub_match` holds iff at least one pattern matches at least one resolved
value — but on a literal header field the code conjoins the patterns: the
field contributes true only when every pattern of the list matches the
header value (AND), and a missing header fails the field. -/
theorem multiple_patterns_semantics (res : List Regex) (values : List String)
    (db : Db) (msg : Msg) (st : MState) (acc : Bool) (part : String)
    (p : String) :
    (sub_match res values = true
      ↔ ∃ v ∈ values, ∃ re ∈ res, re.is_match v = true)
    ∧ (startsWithAt part = false → msg.header part = .ok (some p) →
        fieldStep db msg st acc part res
          = .ok ((res.all fun re => re.is_match p) && acc))
    ∧ (startsWithAt part = false → msg.header part = .ok none →
        fieldStep db msg st acc part res = .ok false) := by
  have hkey : ∀ q : String, startsWithAt part = false → part = q →
      startsWithAt q = true → False := by
    intro q hat hq hsw
    rw [hq] at hat
    rw [hat] at hsw
    cases hsw
  refine ⟨?_, ?_, ?_⟩
  · simp [sub_match, List.any_eq_true]
  · intro hat hh
    have h1 : ¬ part = "@path" := fun h => hkey _ hat h (by decide)
    have h2 : ¬ part = "@tags" := fun h => hkey _ hat h (by decide)
    have h3 : ¬ part = "@thread-tags" := fun h => hkey _ hat h (by decide)
    have h4 : ¬ part = "@attachment" := fun h => hkey _ hat h (by decide)
    have h5 : ¬ part = "@attachment-body" := fun h => hkey _ hat h (by decide)
    have h6 : ¬ part = "@body" := fun h => hkey _ hat h (by decide)
    unfold fieldStep
    simp [h1, h2, h3, h4, h5, h6, hat, hh, headerLoop_all]
  · intro hat hh
    have h1 : ¬ part = "@path" := fun h => hkey _ hat h (by decide)
    have h2 : ¬ part = "@tags" := fun h => hkey _ hat h (by decide)
    have h3 : ¬ part = "@thread-tags" := fun h => hkey _ hat h (by decide)
    have h4 : ¬ part = "@attachment" := fun h => hkey _ hat h (by decide)
    have h5 : ¬ part = "@attachment-body" := fun h => hkey _ hat h (by decide)
    have h6 : ¬ part = "@body" := fun h => hkey _ hat h (by decide)
    unfold fieldStep
    simp [h1, h2, h3, h4, h5, h6, hat, hh]

/-- Witness for C2 (amended) at the concrete field `subject:
Multiple(["a","b"])` with header value `a`. -/
theorem multiple_patterns_semantics_witness :
    fieldStep c2db c2msg c2st true "subject" [reEq "a", reEq "b"]
      = .ok ((([reEq "a", reEq "b"]).all fun re => re.is_match "a") && true) :=
  (multiple_patterns_semantics [reEq "a", reEq "b"] [] c2db c2msg c2st true
    "subject" "a").2.1 (by decide) (by rfl)

/-- Claim C2 as stated is false for literal header fields: the filter
`subject: Multiple(["a","b"])`, compiled under the exact-match compiler,
does not match a message whose subject header is matched by the list's
first pattern — the code demands every pattern match. -/
theorem multiple_header_counterexample :
    Filter.compile rnewExact c2raw = .ok c2filter
    ∧ (reEq "a").is_match "a" = true
    ∧ c2msg.header "subject" = .ok (some "a")
    ∧ c2filter.is_match c2msg c2st c2db = .ok false :=
  ⟨rfl, rfl, rfl, rfl⟩

/-- Claim C7 (amended): `@thread-tags` issues the secondary query
`thread:<id>`, consumes only the first returned thread and matches the
patterns against its tag set; a query failure propagates; and when the
query returns no thread the field is silently skipped — the rule
accumulator is left unchanged (so a rule whose only field is
`@thread-tags` still matches), not failed. -/
theorem thread_tags_semantics (db : Db) (msg : Msg) (st : MState)
    (acc : Bool) (res : List Regex) :
    (∀ th rest,
      db.search_threads ("thread:" ++ msg.thread_id) = .ok (th :: rest) →
      fieldStep db msg st acc "@thread-tags" res
        = .ok (sub_match res th.tags && acc))
    ∧ (db.search_threads ("thread:" ++ msg.thread_id) = .ok [] →
      fieldStep db msg st acc "@thread-tags" res = .ok acc)
    ∧ (∀ e, db.search_threads ("thread:" ++ msg.thread_id) = .error e →
      fieldStep db msg st acc "@thread-tags" res = .error e) := by
  refine ⟨?_, ?_, ?_⟩
  · intro th rest h
    unfold fieldStep
    simp [h]
  · intro h
    unfold fieldStep
    simp [h]
  · intro e h
    unfold fieldStep
    simp [h]

/-- Witness for C7 (amended): the concrete thread-tag filter against the
database with no threads. -/
theorem thread_tags_semantics_witness :
    fieldStep c7db c7msg c2st true "@thread-tags" [reEq "x"] = .ok true :=
  (thread_tags_semantics c7db c7msg c2st true [reEq "x"]).2.1 (by rfl)

/-- Claim C7 as stated is false in its no-thread clause: with a database
returning no thread, the rule whose only field is `@thread-tags` still
matches the message — the field was skipped, not failed. -/
theorem thread_tags_no_thread_counterexample :
    c7db.search_threads ("thread:" ++ c7msg.thread_id) = .ok []
    ∧ c7filter.is_match c7msg c2st c7db = .ok true :=
  ⟨rfl, rfl⟩

/-- Claim C9: a rule field whose key starts with `@` but is none of the six
recognized virtual keys is silently skipped, leaving the rule's
accumulator unchanged; consequently a filter whose only rule consists of
one such field matches every message. -/
theorem unknown_virtual_key_skipped (db : Db) (msg : Msg) (st : MState)
    (acc : Bool) (part : String) (res : List Regex) (f : Filter)
    (hat : startsWithAt part = true)
    (h1 : ¬ part = "@path") (h2 : ¬ part = "@tags")
    (h3 : ¬ part = "@thread-tags") (h4 : ¬ part = "@attachment")
    (h5 : ¬ part = "@attachment-body") (h6 : ¬ part = "@body")
    (hre : f.re = [[(part, res)]]) (hrules : f.rules.length = 1) :
    fieldStep db msg st acc part res = .ok acc
    ∧ f.is_match msg st db = .ok true := by
  have hstep : ∀ a : Bool, fieldStep db msg st a part res = .ok a := by
    intro a
    unfold fieldStep
    simp [h1, h2, h3, h4, h5, h6, hat]
  refine ⟨hstep acc, ?_⟩
  unfold Filter.is_match
  rw [hre]
  have hlen : ¬ ([[(part, res)]] : List CompiledRule).length ≠ f.rules.length := by
    simp [hrules]
  rw [if_neg hlen]
  simp [isMatchRules, evalRule, hstep true]

/-- Witness for C9 at the concrete key `@xyz`. -/
theorem unknown_virtual_key_skipped_witness :
    fieldStep c7db c7msg c2st false "@xyz" [reEq "p"] = .ok false
    ∧ c9filter.is_match c7msg c2st c7db = .ok true :=
  unknown_virtual_key_skipped c7db c7msg c2st false "@xyz" [reEq "p"] c9filter
    (by decide) (by decide) (by decide) (by decide) (by decide) (by decide)
    (by decide) (by rfl) (by rfl)

/-! ### Lemmas about the operations executor -/

/-- Tag removal never touches the file or the index record. -/
theorem rmTags_disk (mb : Mailbox) (tags : List String) (st : MState) :
    (rmTags mb tags st).2.fileOnDisk = st.fileOnDisk
    ∧ (rmTags mb tags st).2.inIndex = st.inIndex := by
  induction tags generalizing st with
  | nil => exact ⟨rfl, rfl⟩
  | cons t ts ih =>
    simp only [rmTags]
    unfold Mailbox.remove_tag
    by_cases h : mb.remove_tag_ok t st = true
    · rw [if_pos h]
      exact ih { st with tags := st.tags.erase t }
    · rw [if_neg h]
      exact ⟨rfl, rfl⟩

/-- Tag addition never touches the file or the index record. -/
theorem addTags_disk (mb : Mailbox) (tags : List String) (st : MState) :
    (addTags mb tags st).2.fileOnDisk = st.fileOnDisk
    ∧ (addTags mb tags st).2.inIndex = st.inIndex := by
  induction tags generalizing st with
  | nil => exact ⟨rfl, rfl⟩
  | cons t ts ih =>
    simp only [addTags]
    unfold Mailbox.add_tag
    by_cases h : mb.add_tag_ok t st = true
    · rw [if_pos h]
      exact ih _
    · rw [if_neg h]
      exact ⟨rfl, rfl⟩

/-- The `rm` step never touches the file or the index record. -/
theorem applyRm_disk (ops : Operations) (mb : Mailbox) (st : MState) :
    (ops.applyRm mb st).2.fileOnDisk = st.fileOnDisk
    ∧ (ops.applyRm mb st).2.inIndex = st.inIndex := by
  rcases ops with ⟨rm, add, run, del⟩
  cases rm with
  | none => exact ⟨rfl, rfl⟩
  | some v =>
    cases v with
    | Single tag =>
      by_cases h : mb.remove_tag_ok tag st = true <;>
        simp [Operations.applyRm, Mailbox.remove_tag, prim, h]
    | Multiple tags => exact rmTags_disk mb tags st
    | Bool all =>
      cases all with
      | false => exact ⟨rfl, rfl⟩
      | true =>
        by_cases h : mb.remove_all_tags_ok st = true <;>
          simp [Operations.applyRm, Mailbox.remove_all_tags, prim, h]

/-- The `add` step never touches the file or the index record. -/
theorem applyAdd_disk (ops : Operations) (mb : Mailbox) (st : MState) :
    (ops.applyAdd mb st).2.fileOnDisk = st.fileOnDisk
    ∧ (ops.applyAdd mb st).2.inIndex = st.inIndex := by
  rcases ops with ⟨rm, add, run, del⟩
  cases add with
  | none => exact ⟨rfl, rfl⟩
  | some v =>
    cases v with
    | Single tag =>
      by_cases h : mb.add_tag_ok tag st = true <;>
        simp [Operations.applyAdd, Mailbox.add_tag, prim, h]
    | Multiple tags => exact addTags_disk mb tags st
    | Bool b => exact ⟨rfl, rfl⟩

/-- The `run` step never touches the file or the index record. -/
theorem applyRun_disk (ops : Operations) (mb : Mailbox) (msg : Msg)
    (name : String) (st : MState) :
    (ops.applyRun mb msg name st).2.fileOnDisk = st.fileOnDisk
    ∧ (ops.applyRun mb msg name st).2.inIndex = st.inIndex := by
  rcases ops with ⟨rm, add, run, del⟩
  cases run with
  | none => exact ⟨rfl, rfl⟩
  | some argv =>
    by_cases h : mb.spawn_ok argv = true <;>
      simp [Operations.applyRun, Mailbox.spawn, prim, h]

/-! ### Claim theorems about the operations executor -/

/-- Claim C6: when `del` is true and reached, `apply` removes the file
first and the index record second — an error (in particular a file-removal
failure) never leaves the index record removed — and the returned flag is
true exactly when the deletion was performed: `Ok(true)` implies `del =
Some(true)`, that the file was present and that both file and record are
now gone, while `Ok(false)` implies file and record are untouched. -/
theorem del_order_and_flag (ops : Operations) (mb : Mailbox) (msg : Msg)
    (name : String) (st : MState) :
    ((Operations.apply ops mb msg name st).1 = .ok true →
      ops.del = some true ∧ st.fileOnDisk = true ∧
      (Operations.apply ops mb msg name st).2.fileOnDisk = false ∧
      (Operations.apply ops mb msg name st).2.inIndex = false)
    ∧ ((Operations.apply ops mb msg name st).1 = .ok false →
      (Operations.apply ops mb msg name st).2.fileOnDisk = st.fileOnDisk ∧
      (Operations.apply ops mb msg name st).2.inIndex = st.inIndex)
    ∧ (∀ e, (Operations.apply ops mb msg name st).1 = .error e →
      (Operations.apply ops mb msg name st).2.inIndex = st.inIndex) := by
  obtain ⟨rm, add, run, del⟩ := ops
  rcases h1 : Operations.applyRm ⟨rm, add, run, del⟩ mb st with ⟨r1, st1⟩
  have hp1 := applyRm_disk ⟨rm, add, run, del⟩ mb st
  rw [h1] at hp1
  cases r1 with
  | error e1 =>
    have happ : Operations.apply ⟨rm, add, run, del⟩ mb msg name st
        = (.error e1, st1) := by
      simp [Operations.apply, h1]
    rw [happ]
    refine ⟨?_, ?_, ?_⟩
    · intro h
      cases h
    · intro h
      cases h
    · intro e he
      exact hp1.2
  | ok u =>
    cases u
    rcases h2 : Operations.applyAdd ⟨rm, add, run, del⟩ mb st1 with ⟨r2, st2⟩
    have hp2 := applyAdd_disk ⟨rm, add, run, del⟩ mb st1
    rw [h2] at hp2
    cases r2 with
    | error e2 =>
      have happ : Operations.apply ⟨rm, add, run, del⟩ mb msg name st
          = (.error e2, st2) := by
        simp [Operations.apply, h1, h2]
      rw [happ]
      refine ⟨?_, ?_, ?_⟩
      · intro h
        cases h
      · intro h
        cases h
      · intro e he
        rw [hp2.2, hp1.2]
    | ok u =>
      cases u
      rcases h3 : Operations.applyRun ⟨rm, add, run, del⟩ mb msg name st2 with ⟨r3, st3⟩
      have hp3 := applyRun_disk ⟨rm, add, run, del⟩ mb msg name st2
      rw [h3] at hp3
      have hd : st3.fileOnDisk = st.fileOnDisk := by
        rw [hp3.1, hp2.1, hp1.1]
      have hi : st3.inIndex = st.inIndex := by
        rw [hp3.2, hp2.2, hp1.2]
      cases r3 with
      | error e3 =>
        have happ : Operations.apply ⟨rm, add, run, del⟩ mb msg name st
            = (.error e3, st3) := by
          simp [Operations.apply, h1, h2, h3]
        rw [happ]
        refine ⟨?_, ?_, ?_⟩
        · intro h
          cases h
        · intro h
          cases h
        · intro e he
          exact hi
      | ok u =>
        cases u
        have happ : Operations.apply ⟨rm, add, run, del⟩ mb msg name st
            = Operations.applyDel ⟨rm, add, run, del⟩ mb st3 := by
          simp [Operations.apply, h1, h2, h3]
        rw [happ]
        cases del with
        | none =>
          refine ⟨?_, fun _ => ⟨hd, hi⟩, ?_⟩
          · intro h
            cases h
          · intro e he
            cases he
        | some dl =>
          cases dl with
          | false =>
            refine ⟨?_, fun _ => ⟨hd, hi⟩, ?_⟩
            · intro h
              cases h
            · intro e he
              cases he
          | true =>
            by_cases hfile : st3.fileOnDisk = true
            · by_cases hidx : mb.remove_message_ok { st3 with fileOnDisk := false } = true
              · have hdel : Operations.applyDel ⟨rm, add, run, some true⟩ mb st3
                    = (.ok true, { st3 with fileOnDisk := false, inIndex := false }) := by
                  simp [Operations.applyDel, fs_remove_file, Mailbox.remove_message,
                    hfile, hidx]
                rw [hdel]
                refine ⟨fun _ => ⟨rfl, by rw [← hd]; exact hfile, rfl, rfl⟩, ?_, ?_⟩
                · intro h
                  cases h
                · intro e he
                  cases he
              · have hdel : Operations.applyDel ⟨rm, add, run, some true⟩ mb st3
                    = (.error Error.NotmuchError, { st3 with fileOnDisk := false }) := by
                  simp [Operations.applyDel, fs_remove_file, Mailbox.remove_message,
                    hfile, hidx]
                rw [hdel]
                refine ⟨?_, ?_, fun e _ => hi⟩
                · intro h
                  cases h
                · intro h
                  cases h
            · have hdel : Operations.applyDel ⟨rm, add, run, some true⟩ mb st3
                  = (.error Error.IoError, st3) := by
                simp [Operations.applyDel, fs_remove_file, hfile]
              rw [hdel]
              refine ⟨?_, ?_, fun e _ => hi⟩
              · intro h
                cases h
              · intro h
                cases h

/-- Witness for C6: a `del = Some(true)` operation set on an all-ok
mailbox with the file present yields `Ok(true)` with file and index
removed. -/
theorem del_order_and_flag_witness :
    (⟨none, none, none, some true⟩ : Operations).del = some true
    ∧ c3st.fileOnDisk = true
    ∧ (Operations.apply ⟨none, none, none, some true⟩ allOk c3msg "n" c3st).2.fileOnDisk = false
    ∧ (Operations.apply ⟨none, none, none, some true⟩ allOk c3msg "n" c3st).2.inIndex = false :=
  (del_order_and_flag ⟨none, none, none, some true⟩ allOk c3msg "n" c3st).1 (by rfl)

/-- Claim C5: in `Operations::apply` a Boolean `add` value yields
`UnsupportedValue` (whenever the preceding `rm` step succeeded, the whole
apply stops with exactly that error and the rm step's state); a Boolean
true `rm` removes all tags of the message; a Boolean false `rm` changes
nothing. -/
theorem bool_operations_semantics (ops : Operations) (mb : Mailbox)
    (msg : Msg) (name : String) (st st1 : MState) (b : Bool) :
    (ops.add = some (.Bool b) → ops.applyRm mb st = (.ok (), st1) →
      Operations.apply ops mb msg name st
        = (.error (Error.UnsupportedValue msgAddBool), st1))
    ∧ (ops.rm = some (.Bool true) → mb.remove_all_tags_ok st = true →
      ops.applyRm mb st = (.ok (), { st with tags := [] }))
    ∧ (ops.rm = some (.Bool false) → ops.applyRm mb st = (.ok (), st)) := by
  refine ⟨?_, ?_, ?_⟩
  · intro hadd hrm
    simp [Operations.apply, hrm, Operations.applyAdd, hadd]
  · intro hrm hok
    simp [Operations.applyRm, hrm, Mailbox.remove_all_tags, prim, hok]
  · intro hrm
    simp [Operations.applyRm, hrm]

/-- Witness for C5: the three Boolean cases at concrete operation sets on
the all-ok mailbox. -/
theorem bool_operations_semantics_witness :
    Operations.apply ⟨some (Value.Bool true), some (Value.Bool false), none, none⟩
        allOk c3msg "n" c3st
      = (.error (Error.UnsupportedValue msgAddBool), { c3st with tags := [] })
    ∧ Operations.applyRm ⟨some (Value.Bool true), none, none, none⟩ allOk c3st
      = (.ok (), { c3st with tags := [] })
    ∧ Operations.applyRm ⟨some (Value.Bool false), none, none, none⟩ allOk c3st
      = (.ok (), c3st) :=
  ⟨(bool_operations_semantics _ allOk c3msg "n" c3st _ false).1 (by rfl) (by rfl),
   (bool_operations_semantics ⟨some (Value.Bool true), none, none, none⟩
      allOk c3msg "n" c3st c3st true).2.1 (by rfl) (by rfl),
   (bool_operations_semantics ⟨some (Value.Bool false), none, none, none⟩
      allOk c3msg "n" c3st c3st true).2.2 (by rfl)⟩

/-- Claim C10: `Operations::apply` is not atomic.  When the second removal
of a `Multiple` rm list fails, apply returns that error with the first
removal already in effect (the returned state is the post-first-removal
state, not the initial one); when a Boolean add value aborts apply with
`UnsupportedValue`, the whole rm step's mutations are likewise already in
effect.  Nothing is rolled back. -/
theorem apply_not_atomic (mb : Mailbox) (msg : Msg) (name : String)
    (st st1 : MState) (t1 t2 : String) (e : Error) (b : Bool) :
    (mb.remove_tag t1 st = .ok st1 → mb.remove_tag t2 st1 = .error e →
      Operations.apply ⟨some (.Multiple [t1, t2]), none, none, none⟩ mb msg name st
        = (.error e, st1))
    ∧ (mb.remove_tag t1 st = .ok st1 →
      Operations.apply ⟨some (.Single t1), some (.Bool b), none, none⟩ mb msg name st
        = (.error (Error.UnsupportedValue msgAddBool), st1)) := by
  constructor
  · intro h1 h2
    unfold Operations.apply Operations.applyRm
    simp only
    unfold rmTags
    rw [h1]
    unfold rmTags
    rw [h2]
  · intro h1
    unfold Operations.apply Operations.applyRm
    simp only
    unfold prim
    rw [h1]
    unfold Operations.applyAdd
    simp only

/-- Witness for C10: on a mailbox where only tag `a` can be removed, the
rm list `["a","b"]` fails midway and the add-Boolean variant aborts, both
leaving the earlier effects in place. -/
theorem apply_not_atomic_witness :
    Operations.apply ⟨some (.Multiple ["a", "b"]), none, none, none⟩
        c10mb c3msg "n" c3st = (.error Error.NotmuchError, c3st)
    ∧ Operations.apply ⟨some (.Single "a"), some (.Bool true), none, none⟩
        c10mb c3msg "n" c3st
      = (.error (Error.UnsupportedValue msgAddBool), c3st) :=
  ⟨(apply_not_atomic c10mb c3msg "n" c3st c3st "a" "b" Error.NotmuchError true).1
      (by rfl) (by rfl),
   (apply_not_atomic c10mb c3msg "n" c3st c3st "a" "b" Error.NotmuchError true).2
      (by rfl)⟩

/-! ### Claim theorems about the filtering driver -/

/-- Claim C3 evaluated at its failing input: against one message carrying
tag `new` and the filter list [delete-everything, add-tag-x], the driver of
src/lib.rs returns a tally of 2 — the second filter was still evaluated
and applied after the first one deleted the message (tag `x` sits on the
dead record) — and the query tag was removed from the deleted message as
well.  The claim (and the spec) demand a tally of 1, no further filter
evaluation, and no tag removal on deleted messages. -/
theorem driver_continues_after_delete :
    filter c3db allOk "new" [c3del, c3add] = (.ok 2, [c3final])
    ∧ c3final.fileOnDisk = false
    ∧ c3final.inIndex = false
    ∧ c3final.tags = ["x"] :=
  ⟨rfl, rfl, rfl, rfl⟩

/-- Claim C4 (amended): `filter` and `filter_dry` reject with
`UnsupportedQuery` every query tag that is empty or contains a space, a
double quote or a single quote; every other tag — including tags carrying
other whitespace such as tabs — is accepted, and the validated query is
the literal string `tag:` followed by the tag, with which the mailbox is
then queried. -/
theorem query_tag_validation (t : String) (db : Db) (mb : Mailbox)
    (fs : List Filter) :
    (strIsEmpty t = true →
      (filter db mb t fs).1 = .error (Error.UnsupportedQuery msgEmptyTag)
      ∧ filter_dry db t fs = .error (Error.UnsupportedQuery msgEmptyTag))
    ∧ (strIsEmpty t = false →
      (strContains t ' ' || strContains t '"' || strContains t squote) = true →
      (filter db mb t fs).1 = .error (Error.UnsupportedQuery msgBadTag)
      ∧ filter_dry db t fs = .error (Error.UnsupportedQuery msgBadTag))
    ∧ (∀ q, validate_query_tag t = .ok q → q = "tag:" ++ t)
    ∧ (strIsEmpty t = false →
      (strContains t ' ' || strContains t '"' || strContains t squote) = false →
      filter db mb t fs = filterQuery db mb ("tag:" ++ t) t fs
      ∧ filter_dry db t fs = filterDryQuery db ("tag:" ++ t) fs) := by
  refine ⟨?_, ?_, ?_, ?_⟩
  · intro he
    constructor
    · simp [filter, validate_query_tag, he]
    · simp [filter_dry, validate_query_tag, he]
  · intro he hc
    constructor
    · simp [filter, validate_query_tag, he, hc]
    · simp [filter_dry, validate_query_tag, he, hc]
  · intro q hq
    unfold validate_query_tag at hq
    by_cases he : strIsEmpty t = true
    · rw [if_pos he] at hq
      cases hq
    · rw [if_neg he] at hq
      by_cases hc : (strContains t ' ' || strContains t '"' || strContains t squote) = true
      · rw [if_pos hc] at hq
        cases hq
      · rw [if_neg hc] at hq
        cases hq
        rfl
  · intro he hc
    constructor
    · simp [filter, validate_query_tag, he, hc]
    · simp [filter_dry, validate_query_tag, he, hc]

/-- Witness for C4 (amended): the empty tag and `new tag` are rejected by
both drivers, and the accepted tag `new` queries the mailbox with the
literal string `tag:new`. -/
theorem query_tag_validation_witness :
    ((filter c4db allOk "" []).1 = .error (Error.UnsupportedQuery msgEmptyTag)
      ∧ filter_dry c4db "" [] = .error (Error.UnsupportedQuery msgEmptyTag))
    ∧ ((filter c4db allOk "new tag" []).1 = .error (Error.UnsupportedQuery msgBadTag)
      ∧ filter_dry c4db "new tag" [] = .error (Error.UnsupportedQuery msgBadTag))
    ∧ (filter c4db allOk "new" [] = filterQuery c4db allOk "tag:new" "new" []
      ∧ filter_dry c4db "new" [] = filterDryQuery c4db "tag:new" []) :=
  ⟨(query_tag_validation "" c4db allOk []).1 (by rfl),
   (query_tag_validation "new tag" c4db allOk []).2.1 (by rfl) (by rfl),
   (query_tag_validation "new" c4db allOk []).2.2.2 (by rfl) (by rfl)⟩

/-- Claim C4 as stated is false for non-space whitespace: the tab character
is whitespace, yet a tag containing it is accepted by `validate_query_tag`
and both drivers run with it rather than rejecting `UnsupportedQuery`. -/
theorem query_tag_tab_accepted :
    Char.isWhitespace '\t' = true
    ∧ strContains "a\tb" '\t' = true
    ∧ validate_query_tag "a\tb" = .ok "tag:a\tb"
    ∧ (filter c4db allOk "a\tb" []).1 = .ok 0
    ∧ filter_dry c4db "a\tb" [] = .ok (0, []) :=
  ⟨rfl, rfl, rfl, rfl, rfl⟩

/-! ### BTreeMap canonicalization and the derived name -/

instance : IsAntisymm (String × Value) keyLt where
  antisymm _ _ h1 h2 := absurd h1 (lt_asymm h2)

/-- Everything in an inserted map is the new entry or an old one. -/
theorem mem_btreeInsert (k : String) (v : Value) (m : Rule) (x : String × Value)
    (hx : x ∈ btreeInsert k v m) : x = (k, v) ∨ x ∈ m := by
  induction m with
  | nil => simpa [btreeInsert] using hx
  | cons kv rest ih =>
    obtain ⟨k', v'⟩ := kv
    simp only [btreeInsert] at hx
    by_cases h1 : k < k'
    · rw [if_pos h1] at hx
      rcases List.mem_cons.mp hx with rfl | hx2
      · exact Or.inl rfl
      · exact Or.inr hx2
    · rw [if_neg h1] at hx
      by_cases h2 : k = k'
      · rw [if_pos h2] at hx
        rcases List.mem_cons.mp hx with rfl | hx2
        · exact Or.inl rfl
        · exact Or.inr (List.mem_cons_of_mem _ hx2)
      · rw [if_neg h2] at hx
        rcases List.mem_cons.mp hx with rfl | hx2
        · exact Or.inr (List.mem_cons_self _ _)
        · rcases ih hx2 with h | h
          · exact Or.inl h
          · exact Or.inr (List.mem_cons_of_mem _ h)

/-- `btreeInsert` keeps the list sorted by key. -/
theorem btreeInsert_sorted (k : String) (v : Value) (m : Rule)
    (hs : List.Sorted keyLt m) : List.Sorted keyLt (btreeInsert k v m) := by
  induction m with
  | nil => simp [btreeInsert, keyLt]
  | cons kv rest ih =>
    obtain ⟨k', v'⟩ := kv
    rw [List.sorted_cons] at hs
    obtain ⟨h1, h2⟩ := hs
    simp only [btreeInsert]
    by_cases hlt : k < k'
    · rw [if_pos hlt]
      rw [List.sorted_cons]
      constructor
      · intro b hb
        rcases List.mem_cons.mp hb with rfl | hb2
        · exact hlt
        · exact lt_trans hlt (h1 b hb2)
      · rw [List.sorted_cons]
        exact ⟨h1, h2⟩
    · rw [if_neg hlt]
      by_cases heq : k = k'
      · rw [if_pos heq]
        rw [List.sorted_cons]
        constructor
        · intro b hb
          have hb1 := h1 b hb
          unfold keyLt at hb1 ⊢
          rw [heq]
          exact hb1
        · exact h2
      · rw [if_neg heq]
        rw [List.sorted_cons]
        refine ⟨?_, ih h2⟩
        intro b hb
        rcases mem_btreeInsert k v rest b hb with rfl | hb2
        · exact lt_of_le_of_ne (not_lt.mp hlt) fun h => heq h.symm
        · exact h1 b hb2

/-- Inserting a fresh key is, up to order, just consing the entry. -/
theorem btreeInsert_perm (k : String) (v : Value) (m : Rule)
    (hk : k ∉ m.map Prod.fst) : (btreeInsert k v m).Perm ((k, v) :: m) := by
  induction m with
  | nil => simp [btreeInsert]
  | cons kv rest ih =>
    obtain ⟨k', v'⟩ := kv
    simp only [List.map_cons, List.mem_cons] at hk
    push_neg at hk
    obtain ⟨hk1, hk2⟩ := hk
    simp only [btreeInsert]
    by_cases hlt : k < k'
    · rw [if_pos hlt]
    · rw [if_neg hlt]
      rw [if_neg hk1]
      exact ((ih hk2).cons (k', v')).trans (List.Perm.swap (k, v) (k', v') rest)

/-- Folding insertions over a sorted accumulator stays sorted. -/
theorem btreeFoldl_sorted (l : List (String × Value)) (m : Rule)
    (hs : List.Sorted keyLt m) :
    List.Sorted keyLt (l.foldl (fun acc kv => btreeInsert kv.1 kv.2 acc) m) := by
  induction l generalizing m with
  | nil => exact hs
  | cons kv rest ih => exact ih _ (btreeInsert_sorted kv.1 kv.2 m hs)

/-- Folding insertions of entries with globally distinct keys is, up to
order, appending them. -/
theorem btreeFoldl_perm (l : List (String × Value)) (m : Rule)
    (hnd : (m.map Prod.fst ++ l.map Prod.fst).Nodup) :
    (l.foldl (fun acc kv => btreeInsert kv.1 kv.2 acc) m).Perm (m ++ l) := by
  induction l generalizing m with
  | nil => simp
  | cons kv rest ih =>
    obtain ⟨k, v⟩ := kv
    have hk : k ∉ m.map Prod.fst := by
      rcases List.nodup_append.mp hnd with ⟨-, -, hdisj⟩
      intro hmem
      exact hdisj hmem (by simp)
    have hperm : (btreeInsert k v m).Perm ((k, v) :: m) := btreeInsert_perm k v m hk
    have hkeys : ((btreeInsert k v m).map Prod.fst).Perm (k :: m.map Prod.fst) :=
      hperm.map Prod.fst
    have hshift : (m.map Prod.fst ++ k :: rest.map Prod.fst).Perm
        ((btreeInsert k v m).map Prod.fst ++ rest.map Prod.fst) :=
      List.perm_middle.trans (hkeys.symm.append_right _)
    have hnd' : ((btreeInsert k v m).map Prod.fst ++ rest.map Prod.fst).Nodup :=
      hshift.nodup (by simpa using hnd)
    exact ((ih _ hnd').trans (hperm.append_right rest)).trans List.perm_middle.symm

/-- A built BTreeMap is sorted by key. -/
theorem btreeOfList_sorted (l : List (String × Value)) :
    List.Sorted keyLt (btreeOfList l) :=
  btreeFoldl_sorted l [] (by simp)

/-- With distinct keys, a built BTreeMap holds exactly the inserted
entries. -/
theorem btreeOfList_perm (l : List (String × Value))
    (hnd : (l.map Prod.fst).Nodup) : (btreeOfList l).Perm l := by
  have h := btreeFoldl_perm l [] (by simpa using hnd)
  simpa [btreeOfList] using h

/-- The BTreeMap built from a list of entries with distinct keys does not
depend on the insertion order. -/
theorem btreeOfList_canonical (l1 l2 : List (String × Value))
    (hperm : l1.Perm l2) (hnd : (l1.map Prod.fst).Nodup) :
    btreeOfList l1 = btreeOfList l2 := by
  have hnd2 : (l2.map Prod.fst).Nodup := (hperm.map Prod.fst).nodup hnd
  have p : (btreeOfList l1).Perm (btreeOfList l2) :=
    ((btreeOfList_perm l1 hnd).trans hperm).trans (btreeOfList_perm l2 hnd2).symm
  exact List.eq_of_perm_of_sorted p (btreeOfList_sorted l1) (btreeOfList_sorted l2)

/-- Claim C8: for filters without an explicit name, `Filter::name` hashes
the Debug rendering of the rule list, whose per-rule entries the BTreeMap
keeps in sorted key order; hence two nameless filters whose rule lists
hold, rule by rule, the same field→Value entries — inserted in any
orders, keys distinct within a rule — get equal derived names. -/
theorem derived_name_canonical (f g : Filter)
    (ls1 ls2 : List (List (String × Value)))
    (hf : f.name = none) (hg : g.name = none)
    (hfr : f.rules = ls1.map btreeOfList) (hgr : g.rules = ls2.map btreeOfList)
    (h : List.Forall₂ (fun a b => a.Perm b ∧ (a.map Prod.fst).Nodup) ls1 ls2) :
    f.name' = g.name' := by
  have hr : f.rules = g.rules := by
    rw [hfr, hgr]
    clear hfr hgr
    induction h with
    | nil => rfl
    | cons hab _ ih =>
      simp only [List.map_cons, ih]
      rw [btreeOfList_canonical _ _ hab.1 hab.2]
  unfold Filter.name'
  rw [hf, hg, hr]

/-- Witness for C8: the two-field rule inserted as `a, b` and as `b, a`
yields the same derived name. -/
theorem derived_name_canonical_witness : c8a.name' = c8b.name' :=
  derived_name_canonical c8a c8b
    [[("a", Value.Single "x"), ("b", Value.Single "y")]]
    [[("b", Value.Single "y"), ("a", Value.Single "x")]]
    rfl rfl rfl rfl
    (List.Forall₂.cons ⟨by decide, by decide⟩ List.Forall₂.nil)

end Notcoal
